import Mathlib

/-!
Verification of the synthetic e-commerce dataset generator and loader.

The development shallowly embeds the two Python generator scripts
(`project/scripts/generate_data.py`, the dataclass/JSON variant whose named
functions `generate_users`, `generate_products`, `generate_orders`,
`generate_order_items`, `generate_reviews` and `update_order_totals` are
modelled one-to-one, and `scripts/generate_data.py`, the CSV variant, modelled
for its product/order-item/total section) and the CSV loader
(`scripts/ingest_to_sqlite.py`, function `insert_all`).

Modelling conventions:
* Currency amounts are rationals.  `round(x, 2)` is embedded as `round2`
  (round half up); every claim-relevant application of `round2` is to an exact
  multiple of 1/100, where every rounding mode agrees, so the tie-breaking
  mode is immaterial.
* The seeded pseudo-random stream is an explicit oracle `RandomSource`
  consumed at successive positions `t`, one position per primitive call;
  `random.randint a b` at position `t` is `a + nat t % (b - a + 1)` and
  `random.choice xs` indexes `xs` by `nat t % xs.length` (raising on an empty
  list, hence the nonemptiness arguments, exactly where Python would raise
  `IndexError`).  `random.uniform` draws from the rational oracle `rat`.
* `datetime.now()` is an explicit parameter `now` (a timestamp in seconds),
  since the scripts feed it into the `randint` bound inside `random_date`.
* Python dicts keyed by integers are embedded as functions `ℕ → Option ℚ`;
  a `none` lookup is a `KeyError`, so the aggregation step is `Option`-valued.
-/

/-- Deterministic random oracle: position `t` of the stream yields the natural
`nat t` (used by `randint`/`choice`) or the rational `rat t` (used by
`uniform`). -/
structure RandomSource where
  nat : ℕ → ℕ
  rat : ℕ → ℚ

/-- Embedding of `random.randint(a, b)` consuming stream position `t`. -/
def randint (src : RandomSource) (t a b : ℕ) : ℕ :=
  a + src.nat t % (b - a + 1)

/-- Embedding of `random.choice(xs)` consuming stream position index `k`;
Python raises `IndexError` on an empty list, hence the hypothesis. -/
def choice {α : Type} (xs : List α) (k : ℕ) (h : xs ≠ []) : α :=
  xs.get ⟨k % xs.length, Nat.mod_lt _ (List.length_pos.mpr h)⟩

/-- Embedding of `random_date(start, fin)`: `start + timedelta(seconds=
randint(0, (fin - start).total_seconds()))`, timestamps in whole seconds. -/
def random_date (src : RandomSource) (t start fin : ℕ) : ℕ :=
  start + randint src t 0 (fin - start)

/-- Embedding of Python `round(x, 2)` on exact rationals: round half up to a
multiple of 1/100.  (Python rounds half to even; the two differ only at exact
ties, and every claim below applies `round2` to an exact multiple of 1/100,
where all rounding modes agree.) -/
def round2 (q : ℚ) : ℚ :=
  ((⌊q * 100 + 1 / 2⌋ : ℤ) : ℚ) / 100

/-- A rational is representable with two decimal places. -/
def Is2dp (q : ℚ) : Prop :=
  ∃ k : ℤ, q = (k : ℚ) / 100

theorem is2dp_round2 (q : ℚ) : Is2dp (round2 q) :=
  ⟨⌊q * 100 + 1 / 2⌋, rfl⟩

theorem round2_eq_self (q : ℚ) (h : Is2dp q) : round2 q = q := by
  obtain ⟨k, rfl⟩ := h
  have h100 : ((k : ℚ) / 100) * 100 = (k : ℚ) := by
    field_simp
  rw [round2, h100]
  have : ⌊(k : ℚ) + 1 / 2⌋ = k + ⌊(1 : ℚ) / 2⌋ := Int.floor_int_add k _
  rw [this]
  norm_num

theorem is2dp_zero : Is2dp 0 :=
  ⟨0, by norm_num⟩

theorem is2dp_add {a b : ℚ} (ha : Is2dp a) (hb : Is2dp b) : Is2dp (a + b) := by
  obtain ⟨j, rfl⟩ := ha
  obtain ⟨k, rfl⟩ := hb
  exact ⟨j + k, by push_cast; ring⟩

theorem is2dp_natCast_mul {a : ℚ} (n : ℕ) (ha : Is2dp a) : Is2dp ((n : ℚ) * a) := by
  obtain ⟨k, rfl⟩ := ha
  exact ⟨(n : ℤ) * k, by push_cast; ring⟩

theorem is2dp_sum {l : List ℚ} (h : ∀ q ∈ l, Is2dp q) : Is2dp l.sum := by
  induction l with
  | nil => simpa using is2dp_zero
  | cons a t ih =>
    rw [List.sum_cons]
    exact is2dp_add (h a (by simp)) (ih fun q hq => h q (by simp [hq]))

theorem round2_zero : round2 0 = 0 :=
  round2_eq_self 0 is2dp_zero

/-- Decimal digit character, `chr(48 + d)`. -/
def digitChar (d : ℕ) : Char :=
  Char.ofNat (48 + d)

/-- Fuel-driven decimal expansion of a positive natural, most significant
digit first; `fuel ≥ n` suffices for the expansion to be complete. -/
def natReprAux : ℕ → ℕ → List Char
  | 0, _ => []
  | fuel + 1, n =>
    if n = 0 then [] else natReprAux fuel (n / 10) ++ [digitChar (n % 10)]

/-- Embedding of the decimal rendering `str(n)` used by f-string formatting. -/
def natRepr (n : ℕ) : List Char :=
  if n = 0 then ['0'] else natReprAux n n

/-- Decode a big-endian list of digit characters back to a natural. -/
def decodeChars (l : List Char) : ℕ :=
  l.foldl (fun a c => 10 * a + (c.toNat - 48)) 0

theorem digitChar_toNat {d : ℕ} (h : d < 10) : (digitChar d).toNat = 48 + d := by
  interval_cases d <;> decide

theorem digitChar_isDigit {d : ℕ} (h : d < 10) : (digitChar d).isDigit = true := by
  interval_cases d <;> decide

theorem decodeChars_append_digit (l : List Char) (c : Char) :
    decodeChars (l ++ [c]) = 10 * decodeChars l + (c.toNat - 48) := by
  simp [decodeChars, List.foldl_append]

theorem decodeChars_natReprAux :
    ∀ fuel n, n ≤ fuel → decodeChars (natReprAux fuel n) = n := by
  intro fuel
  induction fuel with
  | zero =>
    intro n hn
    interval_cases n
    simp [natReprAux, decodeChars]
  | succ f ih =>
    intro n hn
    by_cases h0 : n = 0
    · simp [natReprAux, h0, decodeChars]
    · have hdiv : n / 10 ≤ f := by
        have hlt : n / 10 < n := Nat.div_lt_self (Nat.pos_of_ne_zero h0) (by norm_num)
        omega
      have hmod : n % 10 < 10 := Nat.mod_lt _ (by norm_num)
      rw [natReprAux, if_neg h0, decodeChars_append_digit, ih _ hdiv,
        digitChar_toNat hmod]
      omega

theorem decodeChars_natRepr (n : ℕ) : decodeChars (natRepr n) = n := by
  by_cases h0 : n = 0
  · simp [natRepr, h0, decodeChars]
  · rw [natRepr, if_neg h0]
    exact decodeChars_natReprAux n n le_rfl

theorem natRepr_injective {m n : ℕ} (h : natRepr m = natRepr n) : m = n := by
  have := congrArg decodeChars h
  rwa [decodeChars_natRepr, decodeChars_natRepr] at this

theorem natReprAux_digits :
    ∀ fuel n, ∀ c ∈ natReprAux fuel n, c.isDigit = true := by
  intro fuel
  induction fuel with
  | zero => intro n c hc; simp [natReprAux] at hc
  | succ f ih =>
    intro n c hc
    by_cases h0 : n = 0
    · simp [natReprAux, h0] at hc
    · rw [natReprAux, if_neg h0] at hc
      rcases List.mem_append.mp hc with h | h
      · exact ih _ _ h
      · have : c = digitChar (n % 10) := by simpa using h
        subst this
        exact digitChar_isDigit (Nat.mod_lt _ (by norm_num))

theorem natRepr_digits (n : ℕ) : ∀ c ∈ natRepr n, c.isDigit = true := by
  intro c hc
  by_cases h0 : n = 0
  · simp [natRepr, h0] at hc
    subst hc
    decide
  · rw [natRepr, if_neg h0] at hc
    exact natReprAux_digits n n c hc

/-- Embedding of Python `str.lower()` (per-character ASCII lowering). -/
def strLower (s : String) : String :=
  ⟨s.data.map Char.toLower⟩

/- ### Entity records (dataclasses of `project/scripts/generate_data.py`) -/

/-- Dataclass `User`. -/
structure User where
  user_id : ℕ
  name : String
  email : String
  location : String
  signup_date : ℕ
deriving DecidableEq, Repr

/-- Dataclass `Product`. -/
structure Product where
  product_id : ℕ
  name : String
  category : String
  price : ℚ
  stock : ℕ
deriving DecidableEq, Repr

/-- Dataclass `Order`. -/
structure Order where
  order_id : ℕ
  user_id : ℕ
  order_date : ℕ
  total_amount : ℚ
deriving DecidableEq, Repr

/-- Dataclass `OrderItem`. -/
structure OrderItem where
  item_id : ℕ
  order_id : ℕ
  product_id : ℕ
  quantity : ℕ
  price : ℚ
deriving DecidableEq, Repr

/-- Dataclass `Review`. -/
structure Review where
  review_id : ℕ
  user_id : ℕ
  product_id : ℕ
  rating : ℕ
  comment : String
deriving DecidableEq, Repr

/-- The five in-memory collections produced by `main`. -/
structure Dataset where
  users : List User
  products : List Product
  orders : List Order
  order_items : List OrderItem
  reviews : List Review
deriving DecidableEq, Repr

/- ### Constant pools of `project/scripts/generate_data.py` -/

def FIRST_NAMES : List String :=
  ["Avery", "Brooke", "Cameron", "Dakota", "Elliot",
   "Finley", "Harper", "Jordan", "Kai", "Logan"]

def LAST_NAMES : List String :=
  ["Smith", "Johnson", "Reyes", "Hughes", "Patel",
   "Garcia", "Matsumoto", "Nakamura", "Silva", "Romero"]

def CITIES : List (String × String) :=
  [("Seattle", "USA"), ("Vancouver", "Canada"), ("London", "UK"),
   ("Sydney", "Australia"), ("Berlin", "Germany"), ("Paris", "France")]

def CATEGORIES : List String :=
  ["Electronics", "Home", "Outdoors", "Books", "Beauty", "Toys"]

def REVIEW_COMMENTS : List String :=
  ["Great quality and fast shipping", "Product was okay, could be better",
   "Exceeded expectations", "Not worth the price",
   "Solid purchase overall", "Impressed with the durability"]

def DESCRIPTORS : List String :=
  ["Wireless", "Eco", "Pro", "Compact", "Ultra", "Smart"]

def NOUNS : List String :=
  ["Speaker", "Lamp", "Tent", "Cookbook", "Serum", "Drone", "Backpack"]

/-- Email construction of `generate_users`:
`f"{first.lower()}.{last.lower()}{uid}@example.com"`. -/
def mk_email (first last : String) (uid : ℕ) : String :=
  strLower first ++ "." ++ strLower last ++ String.mk (natRepr uid) ++ "@example.com"

/- ### Generators (`project/scripts/generate_data.py`) -/

/-- Loop body of `generate_users`; each iteration consumes four stream
positions (first name, last name, city, signup date). -/
def generate_users_aux (src : RandomSource) (start now : ℕ) :
    ℕ → ℕ → ℕ → List User
  | _, 0, _ => []
  | uid, n + 1, t =>
    let first := choice FIRST_NAMES (src.nat t) (by decide)
    let last := choice LAST_NAMES (src.nat (t + 1)) (by decide)
    let city := choice CITIES (src.nat (t + 2)) (by decide)
    { user_id := uid
      name := first ++ " " ++ last
      email := mk_email first last uid
      location := city.1 ++ ", " ++ city.2
      signup_date := random_date src (t + 3) start now } ::
      generate_users_aux src start now (uid + 1) n (t + 4)

/-- Embedding of `generate_users(count)` starting at stream position `t`. -/
def generate_users (src : RandomSource) (count start now t : ℕ) : List User :=
  generate_users_aux src start now 1 count t

/-- Loop body of `generate_products`; each iteration consumes five stream
positions (category, descriptor, noun, price, stock). -/
def generate_products_aux (src : RandomSource) : ℕ → ℕ → ℕ → List Product
  | _, 0, _ => []
  | pid, n + 1, t =>
    let category := choice CATEGORIES (src.nat t) (by decide)
    let descriptor := choice DESCRIPTORS (src.nat (t + 1)) (by decide)
    let noun := choice NOUNS (src.nat (t + 2)) (by decide)
    { product_id := pid
      name := descriptor ++ " " ++ noun
      category := category
      price := round2 (src.rat (t + 3))
      stock := randint src (t + 4) 10 500 } ::
      generate_products_aux src (pid + 1) n (t + 5)

/-- Embedding of `generate_products(count)` starting at stream position `t`. -/
def generate_products (src : RandomSource) (count t : ℕ) : List Product :=
  generate_products_aux src 1 count t

/-- Loop body of `generate_orders`; each iteration consumes two stream
positions (user choice, order date). -/
def generate_orders_aux (src : RandomSource) (users : List User)
    (hu : users ≠ []) (start now : ℕ) : ℕ → ℕ → ℕ → List Order
  | _, 0, _ => []
  | oid, n + 1, t =>
    let user := choice users (src.nat t) hu
    { order_id := oid
      user_id := user.user_id
      order_date := random_date src (t + 1) start now
      total_amount := 0 } ::
      generate_orders_aux src users hu start now (oid + 1) n (t + 2)

/-- Embedding of `generate_orders(count, users)` starting at position `t`. -/
def generate_orders (src : RandomSource) (count : ℕ) (users : List User)
    (hu : users ≠ []) (start now t : ℕ) : List Order :=
  generate_orders_aux src users hu start now 1 count t

/-- Loop body of `generate_order_items`; each iteration consumes three stream
positions (order choice, product choice, quantity). -/
def generate_order_items_aux (src : RandomSource) (orders : List Order)
    (products : List Product) (ho : orders ≠ []) (hp : products ≠ []) :
    ℕ → ℕ → ℕ → List OrderItem
  | _, 0, _ => []
  | iid, n + 1, t =>
    let order := choice orders (src.nat t) ho
    let product := choice products (src.nat (t + 1)) hp
    { item_id := iid
      order_id := order.order_id
      product_id := product.product_id
      quantity := randint src (t + 2) 1 5
      price := product.price } ::
      generate_order_items_aux src orders products ho hp (iid + 1) n (t + 3)

/-- Embedding of `generate_order_items(count, orders, products)`. -/
def generate_order_items (src : RandomSource) (count : ℕ) (orders : List Order)
    (products : List Product) (ho : orders ≠ []) (hp : products ≠ [])
    (t : ℕ) : List OrderItem :=
  generate_order_items_aux src orders products ho hp 1 count t

/-- Loop body of `generate_reviews`; each iteration consumes four stream
positions (user choice, product choice, rating, comment). -/
def generate_reviews_aux (src : RandomSource) (users : List User)
    (products : List Product) (hu : users ≠ []) (hp : products ≠ []) :
    ℕ → ℕ → ℕ → List Review
  | _, 0, _ => []
  | rid, n + 1, t =>
    let user := choice users (src.nat t) hu
    let product := choice products (src.nat (t + 1)) hp
    { review_id := rid
      user_id := user.user_id
      product_id := product.product_id
      rating := randint src (t + 2) 1 5
      comment := choice REVIEW_COMMENTS (src.nat (t + 3)) (by decide) } ::
      generate_reviews_aux src users products hu hp (rid + 1) n (t + 4)

/-- Embedding of `generate_reviews(count, users, products)`. -/
def generate_reviews (src : RandomSource) (count : ℕ) (users : List User)
    (products : List Product) (hu : users ≠ []) (hp : products ≠ [])
    (t : ℕ) : List Review :=
  generate_reviews_aux src users products hu hp 1 count t

/- ### Total aggregation (`update_order_totals`) -/

/-- Embedding of the dict comprehension
`totals = \x7border.order_id: 0.0 for order in orders\x7d`. -/
def dict_init (orders : List Order) : ℕ → Option ℚ :=
  fun k => if k ∈ orders.map (fun o => o.order_id) then some 0 else none

/-- Embedding of the accumulation loop `for item in items:
totals[key(item)] += val(item)`; a missing key is a `KeyError` (`none`).
Generic in the item type so both script variants share it. -/
def accumulate {α : Type} (key : α → ℕ) (val : α → ℚ) :
    List α → (ℕ → Option ℚ) → Option (ℕ → Option ℚ)
  | [], d => some d
  | x :: rest, d =>
    match d (key x) with
    | none => none
    | some v =>
      accumulate key val rest (fun k => if k = key x then some (v + val x) else d k)

/-- Embedding of the assignment loop `for o in os: o.total = round(totals[key
o], 2)`; a missing key is a `KeyError` (`none`). -/
def assign_totals {β : Type} (key : β → ℕ) (upd : β → ℚ → β)
    (tot : ℕ → Option ℚ) : List β → Option (List β)
  | [] => some []
  | o :: rest =>
    match tot (key o) with
    | none => none
    | some v =>
      (assign_totals key upd tot rest).map (fun rs => upd o (round2 v) :: rs)

/-- Embedding of `update_order_totals(orders, items)`; returns the order list
with recomputed totals, or `none` when a dict lookup raises `KeyError`. -/
def update_order_totals (orders : List Order) (items : List OrderItem) :
    Option (List Order) :=
  (accumulate (fun it => it.order_id) (fun it => (it.quantity : ℚ) * it.price)
      items (dict_init orders)).bind
    (assign_totals (fun o => o.order_id)
      (fun o v => { o with total_amount := v }) · orders)

/-- Reference expression of the spec: the sum of `quantity * unit_price` over
the order items whose `order_id` is `k`. -/
def orderSum (items : List OrderItem) (k : ℕ) : ℚ :=
  ((items.filter (fun it => it.order_id == k)).map
    (fun it => (it.quantity : ℚ) * it.price)).sum

/-- Generic keyed sum: total of `val` over the elements whose key is `k`. -/
def keyedSum {α : Type} (key : α → ℕ) (val : α → ℚ) (xs : List α) (k : ℕ) : ℚ :=
  ((xs.filter (fun x => key x == k)).map val).sum

theorem orderSum_eq_keyedSum (items : List OrderItem) (k : ℕ) :
    orderSum items k =
      keyedSum (fun it => it.order_id)
        (fun it => (it.quantity : ℚ) * it.price) items k := rfl

theorem accumulate_isSome_eq {α : Type} (key : α → ℕ) (val : α → ℚ) :
    ∀ (xs : List α) (d d' : ℕ → Option ℚ),
      accumulate key val xs d = some d' → ∀ k, (d' k).isSome = (d k).isSome := by
  intro xs
  induction xs with
  | nil =>
    intro d d' h k
    simp only [accumulate, Option.some.injEq] at h
    subst h
    rfl
  | cons x rest ih =>
    intro d d' h k
    rw [accumulate] at h
    cases hd : d (key x) with
    | none => rw [hd] at h; exact absurd h (by simp)
    | some v =>
      rw [hd] at h
      have := ih _ _ h k
      rw [this]
      by_cases hk : k = key x
      · subst hk
        simp [hd]
      · simp [hk]

theorem accumulate_isSome_iff {α : Type} (key : α → ℕ) (val : α → ℚ) :
    ∀ (xs : List α) (d : ℕ → Option ℚ),
      (accumulate key val xs d).isSome = true ↔
        ∀ x ∈ xs, (d (key x)).isSome = true := by
  intro xs
  induction xs with
  | nil => intro d; simp [accumulate]
  | cons x rest ih =>
    intro d
    rw [accumulate]
    cases hd : d (key x) with
    | none =>
      simp only [Option.isSome_none]
      constructor
      · intro h; exact absurd h (by simp)
      · intro h
        have := h x (by simp)
        rw [hd] at this
        exact absurd this (by simp)
    | some v =>
      rw [ih]
      constructor
      · intro h y hy
        rcases List.mem_cons.mp hy with rfl | hy
        · rw [hd]; rfl
        · have := h y hy
          by_cases hk : key y = key x
          · rw [hk, hd]; rfl
          · simpa [hk] using this
      · intro h y hy
        by_cases hk : key y = key x
        · simp [hk]
        · have := h y (by simp [hy])
          simpa [hk] using this

theorem accumulate_val {α : Type} (key : α → ℕ) (val : α → ℚ) :
    ∀ (xs : List α) (d d' : ℕ → Option ℚ),
      accumulate key val xs d = some d' →
      ∀ k v, d k = some v → d' k = some (v + keyedSum key val xs k) := by
  intro xs
  induction xs with
  | nil =>
    intro d d' h k v hk
    simp only [accumulate, Option.some.injEq] at h
    subst h
    simp [keyedSum, hk]
  | cons x rest ih =>
    intro d d' h k v hk
    rw [accumulate] at h
    cases hd : d (key x) with
    | none => rw [hd] at h; exact absurd h (by simp)
    | some w =>
      rw [hd] at h
      by_cases hkx : k = key x
      · have hvw : v = w := by
          rw [hkx, hd] at hk
          exact (Option.some.inj hk).symm
        have hstep : (fun j => if j = key x then some (w + val x) else d j) k
            = some (w + val x) := by simp [hkx]
        have hrec := ih _ _ h k (w + val x) hstep
        rw [hrec]
        have hfil : (x :: rest).filter (fun y => key y == k) =
            x :: rest.filter (fun y => key y == k) := by
          simp [List.filter_cons, hkx]
        simp only [keyedSum]
        rw [hfil]
        simp only [List.map_cons, List.sum_cons]
        rw [hvw]
        congr 1
        ring
      · have hstep : (fun j => if j = key x then some (w + val x) else d j) k
            = some v := by simp [hkx, hk]
        have hrec := ih _ _ h k v hstep
        rw [hrec]
        have hfil : (x :: rest).filter (fun y => key y == k) =
            rest.filter (fun y => key y == k) := by
          rw [List.filter_cons]
          have : (key x == k) = false := by
            simp only [beq_eq_false_iff_ne]
            exact fun hcontra => hkx hcontra.symm
          simp [this]
        simp only [keyedSum]
        rw [hfil]

theorem assign_totals_mem {β : Type} (key : β → ℕ) (upd : β → ℚ → β)
    (tot : ℕ → Option ℚ) :
    ∀ (os os' : List β), assign_totals key upd tot os = some os' →
      ∀ b ∈ os', ∃ o ∈ os, ∃ v, tot (key o) = some v ∧ b = upd o (round2 v) := by
  intro os
  induction os with
  | nil =>
    intro os' h b hb
    simp only [assign_totals, Option.some.injEq] at h
    subst h
    simp at hb
  | cons o rest ih =>
    intro os' h b hb
    rw [assign_totals] at h
    cases ht : tot (key o) with
    | none => rw [ht] at h; exact absurd h (by simp)
    | some v =>
      rw [ht] at h
      obtain ⟨rs, hrs, rfl⟩ := Option.map_eq_some'.mp h
      rcases List.mem_cons.mp hb with rfl | hb
      · exact ⟨o, by simp, v, ht, rfl⟩
      · obtain ⟨o2, ho2, w, hw, hbw⟩ := ih rs hrs b hb
        exact ⟨o2, by simp [ho2], w, hw, hbw⟩

theorem assign_totals_forall2 {β : Type} (key : β → ℕ) (upd : β → ℚ → β)
    (tot : ℕ → Option ℚ) :
    ∀ (os os' : List β), assign_totals key upd tot os = some os' →
      List.Forall₂ (fun o b => ∃ v, tot (key o) = some v ∧ b = upd o (round2 v))
        os os' := by
  intro os
  induction os with
  | nil =>
    intro os' h
    simp only [assign_totals, Option.some.injEq] at h
    subst h
    exact List.Forall₂.nil
  | cons o rest ih =>
    intro os' h
    rw [assign_totals] at h
    cases ht : tot (key o) with
    | none => rw [ht] at h; exact absurd h (by simp)
    | some v =>
      rw [ht] at h
      obtain ⟨rs, hrs, rfl⟩ := Option.map_eq_some'.mp h
      exact List.Forall₂.cons ⟨v, ht, rfl⟩ (ih rs hrs)

theorem assign_totals_isSome {β : Type} (key : β → ℕ) (upd : β → ℚ → β)
    (tot : ℕ → Option ℚ) :
    ∀ (os : List β), (∀ o ∈ os, (tot (key o)).isSome = true) →
      (assign_totals key upd tot os).isSome = true := by
  intro os
  induction os with
  | nil => intro _; simp [assign_totals]
  | cons o rest ih =>
    intro h
    rw [assign_totals]
    cases ht : tot (key o) with
    | none =>
      have := h o (by simp)
      rw [ht] at this
      exact absurd this (by simp)
    | some v =>
      have := ih (fun y hy => h y (by simp [hy]))
      cases hrs : assign_totals key upd tot rest with
      | none => rw [hrs] at this; exact absurd this (by simp)
      | some rs => simp [hrs]

theorem assign_totals_map_key {β : Type} (key : β → ℕ) (upd : β → ℚ → β)
    (tot : ℕ → Option ℚ) (hkey : ∀ o v, key (upd o v) = key o) :
    ∀ (os os' : List β), assign_totals key upd tot os = some os' →
      os'.map key = os.map key := by
  intro os
  induction os with
  | nil =>
    intro os' h
    simp only [assign_totals, Option.some.injEq] at h
    subst h
    rfl
  | cons o rest ih =>
    intro os' h
    rw [assign_totals] at h
    cases ht : tot (key o) with
    | none => rw [ht] at h; exact absurd h (by simp)
    | some v =>
      rw [ht] at h
      obtain ⟨rs, hrs, rfl⟩ := Option.map_eq_some'.mp h
      simp [hkey, ih rs hrs]

theorem assign_totals_twice {β : Type} (key : β → ℕ) (upd : β → ℚ → β)
    (tot : ℕ → Option ℚ) (hkey : ∀ o v, key (upd o v) = key o)
    (hupd : ∀ o v w, upd (upd o v) w = upd o w) :
    ∀ (os os' : List β), assign_totals key upd tot os = some os' →
      assign_totals key upd tot os' = some os' := by
  intro os
  induction os with
  | nil =>
    intro os' h
    simp only [assign_totals, Option.some.injEq] at h
    subst h
    rfl
  | cons o rest ih =>
    intro os' h
    rw [assign_totals] at h
    cases ht : tot (key o) with
    | none => rw [ht] at h; exact absurd h (by simp)
    | some v =>
      rw [ht] at h
      obtain ⟨rs, hrs, rfl⟩ := Option.map_eq_some'.mp h
      rw [assign_totals, hkey, ht, ih rs hrs]
      simp [hupd]

/-- Step of `main` that recomputes totals inside the full dataset: only the
`orders` field is rebuilt, every other collection is carried over unchanged,
mirroring that `update_order_totals` mutates order objects in place and only
reads `items`. -/
def ds_update_order_totals (ds : Dataset) : Option Dataset :=
  (update_order_totals ds.orders ds.order_items).map
    (fun os => { ds with orders := os })

/-- C1: after the total-aggregation step every order's `total_amount` equals
`round(sum(quantity * unit_price) over its items, 2)`; an order with no
matching order items gets total `0.00`. -/
theorem c1_total_is_rounded_item_sum (orders : List Order)
    (items : List OrderItem) (orders' : List Order)
    (h : update_order_totals orders items = some orders') :
    ∀ o ∈ orders', o.total_amount = round2 (orderSum items o.order_id) ∧
      (items.filter (fun it => it.order_id == o.order_id) = [] →
        o.total_amount = 0) := by
  unfold update_order_totals at h
  obtain ⟨tot, hacc, hassign⟩ := Option.bind_eq_some.mp h
  intro b hb
  obtain ⟨o, ho, v, htot, rfl⟩ := assign_totals_mem _ _ _ _ _ hassign b hb
  have hinit : dict_init orders o.order_id = some 0 := by
    unfold dict_init
    rw [if_pos (List.mem_map_of_mem _ ho)]
  have hval := accumulate_val _ _ _ _ _ hacc o.order_id 0 hinit
  rw [htot] at hval
  have hv : v = keyedSum (fun it => it.order_id)
      (fun it => (it.quantity : ℚ) * it.price) items o.order_id := by
    have := Option.some.inj hval
    simpa using this
  have hid : ({ o with total_amount := round2 v } : Order).order_id =
      o.order_id := rfl
  constructor
  · show round2 v = round2 (orderSum items _)
    rw [hid, orderSum_eq_keyedSum, hv]
  · intro hempty
    rw [hid] at hempty
    show round2 v = 0
    rw [hv]
    have : keyedSum (fun it => it.order_id)
        (fun it => (it.quantity : ℚ) * it.price) items o.order_id = 0 := by
      unfold keyedSum
      rw [hempty]
      simp
    rw [this, round2_zero]

/-- Concrete evaluation of the aggregation step on a one-order, one-item
input, shared by the witnesses below. -/
theorem update_order_totals_example :
    update_order_totals [⟨1, 1, 0, 0⟩] [⟨1, 1, 1, 2, 5⟩] =
      some [⟨1, 1, 0, 10⟩] := by
  simp only [update_order_totals, accumulate, assign_totals, dict_init]
  norm_num [round2]

theorem c1_total_is_rounded_item_sum_witness :
    (⟨1, 1, 0, (10 : ℚ)⟩ : Order).total_amount =
        round2 (orderSum [⟨1, 1, 1, 2, (5 : ℚ)⟩] (⟨1, 1, 0, (10 : ℚ)⟩ : Order).order_id) ∧
      (([⟨1, 1, 1, 2, (5 : ℚ)⟩] : List OrderItem).filter
          (fun it => it.order_id == (⟨1, 1, 0, (10 : ℚ)⟩ : Order).order_id) = [] →
        (⟨1, 1, 0, (10 : ℚ)⟩ : Order).total_amount = 0) :=
  c1_total_is_rounded_item_sum [⟨1, 1, 0, 0⟩] [⟨1, 1, 1, 2, 5⟩]
    [⟨1, 1, 0, 10⟩] update_order_totals_example ⟨1, 1, 0, 10⟩
    (List.mem_singleton.mpr rfl)

/-- C4: the total-aggregation step is idempotent — rerunning
`update_order_totals` on the already-updated orders with the unchanged item
collection reproduces exactly the same order list. -/
theorem c4_update_totals_idempotent (orders : List Order)
    (items : List OrderItem) (orders' : List Order)
    (h : update_order_totals orders items = some orders') :
    update_order_totals orders' items = some orders' := by
  unfold update_order_totals at h ⊢
  obtain ⟨tot, hacc, hassign⟩ := Option.bind_eq_some.mp h
  have hkey : ∀ (o : Order) (v : ℚ),
      ({ o with total_amount := v } : Order).order_id = o.order_id :=
    fun _ _ => rfl
  have hmap : orders'.map (fun o => o.order_id) =
      orders.map (fun o => o.order_id) :=
    assign_totals_map_key _ _ _ hkey _ _ hassign
  have hinit : dict_init orders' = dict_init orders := by
    funext k
    unfold dict_init
    rw [hmap]
  rw [hinit, hacc]
  have htwice := assign_totals_twice
    (fun o : Order => o.order_id) (fun o v => { o with total_amount := v }) tot
    hkey (fun _ _ _ => rfl) _ _ hassign
  simpa using htwice

theorem c4_update_totals_idempotent_witness :
    update_order_totals [⟨1, 1, 0, (10 : ℚ)⟩] [⟨1, 1, 1, 2, (5 : ℚ)⟩] =
      some [⟨1, 1, 0, (10 : ℚ)⟩] :=
  c4_update_totals_idempotent [⟨1, 1, 0, 0⟩] [⟨1, 1, 1, 2, 5⟩]
    [⟨1, 1, 0, 10⟩] update_order_totals_example

/-- C7: the total-aggregation step only rewrites the `total_amount` field of
orders; identity, owner and date of every order are preserved positionally,
and the other four collections of the dataset are untouched. -/
theorem c7_update_totals_frame (ds ds' : Dataset)
    (h : ds_update_order_totals ds = some ds') :
    ds'.users = ds.users ∧ ds'.products = ds.products ∧
      ds'.order_items = ds.order_items ∧ ds'.reviews = ds.reviews ∧
      List.Forall₂ (fun o b => b.order_id = o.order_id ∧
        b.user_id = o.user_id ∧ b.order_date = o.order_date)
        ds.orders ds'.orders := by
  obtain ⟨os, hu, rfl⟩ := Option.map_eq_some'.mp h
  refine ⟨rfl, rfl, rfl, rfl, ?_⟩
  unfold update_order_totals at hu
  obtain ⟨tot, hacc, hassign⟩ := Option.bind_eq_some.mp hu
  have h2 := assign_totals_forall2 _ _ _ _ _ hassign
  exact h2.imp (fun o b hb => by
    obtain ⟨v, _, rfl⟩ := hb
    exact ⟨rfl, rfl, rfl⟩)

theorem c7_update_totals_frame_witness :
    (Dataset.mk [] [] [⟨1, 1, 0, (10 : ℚ)⟩] [⟨1, 1, 1, 2, (5 : ℚ)⟩] []).users =
        (Dataset.mk [] [] [⟨1, 1, 0, (0 : ℚ)⟩] [⟨1, 1, 1, 2, (5 : ℚ)⟩] []).users ∧
      (Dataset.mk [] [] [⟨1, 1, 0, (10 : ℚ)⟩] [⟨1, 1, 1, 2, (5 : ℚ)⟩] []).products =
        (Dataset.mk [] [] [⟨1, 1, 0, (0 : ℚ)⟩] [⟨1, 1, 1, 2, (5 : ℚ)⟩] []).products ∧
      (Dataset.mk [] [] [⟨1, 1, 0, (10 : ℚ)⟩] [⟨1, 1, 1, 2, (5 : ℚ)⟩] []).order_items =
        (Dataset.mk [] [] [⟨1, 1, 0, (0 : ℚ)⟩] [⟨1, 1, 1, 2, (5 : ℚ)⟩] []).order_items ∧
      (Dataset.mk [] [] [⟨1, 1, 0, (10 : ℚ)⟩] [⟨1, 1, 1, 2, (5 : ℚ)⟩] []).reviews =
        (Dataset.mk [] [] [⟨1, 1, 0, (0 : ℚ)⟩] [⟨1, 1, 1, 2, (5 : ℚ)⟩] []).reviews ∧
      List.Forall₂ (fun o b => b.order_id = o.order_id ∧
        b.user_id = o.user_id ∧ b.order_date = o.order_date)
        (Dataset.mk [] [] [⟨1, 1, 0, (0 : ℚ)⟩] [⟨1, 1, 1, 2, (5 : ℚ)⟩] []).orders
        (Dataset.mk [] [] [⟨1, 1, 0, (10 : ℚ)⟩] [⟨1, 1, 1, 2, (5 : ℚ)⟩] []).orders :=
  c7_update_totals_frame
    (Dataset.mk [] [] [⟨1, 1, 0, 0⟩] [⟨1, 1, 1, 2, 5⟩] [])
    (Dataset.mk [] [] [⟨1, 1, 0, 10⟩] [⟨1, 1, 1, 2, 5⟩] [])
    (by simp [ds_update_order_totals, update_order_totals_example])

/-- C10: the aggregation step succeeds exactly when every order item's
`order_id` occurs among the order identities; an item referencing no order
makes the accumulator lookup raise (`none`) rather than being ignored. -/
theorem c10_update_totals_isSome_iff (orders : List Order)
    (items : List OrderItem) :
    (update_order_totals orders items).isSome = true ↔
      ∀ it ∈ items, it.order_id ∈ orders.map (fun o => o.order_id) := by
  unfold update_order_totals
  constructor
  · intro h
    cases hacc : accumulate (fun it => it.order_id)
        (fun it => (it.quantity : ℚ) * it.price) items (dict_init orders) with
    | none => rw [hacc] at h; exact absurd h (by simp)
    | some tot =>
      intro it hit
      have hsome := (accumulate_isSome_iff _ _ items (dict_init orders)).mp
        (by rw [hacc]; rfl) it hit
      unfold dict_init at hsome
      by_cases hmem : it.order_id ∈ orders.map (fun o => o.order_id)
      · exact hmem
      · rw [if_neg hmem] at hsome
        exact absurd hsome (by simp)
  · intro h
    have hsome : (accumulate (fun it => it.order_id)
        (fun it => (it.quantity : ℚ) * it.price) items
        (dict_init orders)).isSome = true := by
      apply (accumulate_isSome_iff _ _ items (dict_init orders)).mpr
      intro it hit
      unfold dict_init
      rw [if_pos (h it hit)]
      rfl
    cases hacc : accumulate (fun it => it.order_id)
        (fun it => (it.quantity : ℚ) * it.price) items (dict_init orders) with
    | none => rw [hacc] at hsome; exact absurd hsome (by simp)
    | some tot =>
      simp only [Option.some_bind]
      apply assign_totals_isSome
      intro o ho
      have hdom := accumulate_isSome_eq _ _ items _ _ hacc o.order_id
      rw [hdom]
      unfold dict_init
      rw [if_pos (List.mem_map_of_mem _ ho)]
      rfl

theorem c10_update_totals_isSome_iff_witness :
    (update_order_totals [⟨1, 1, 0, (0 : ℚ)⟩]
      [⟨1, 1, 1, 2, (5 : ℚ)⟩]).isSome = true :=
  (c10_update_totals_isSome_iff [⟨1, 1, 0, 0⟩] [⟨1, 1, 1, 2, 5⟩]).mpr
    (by decide)

theorem choice_mem {α : Type} (xs : List α) (k : ℕ) (h : xs ≠ []) :
    choice xs k h ∈ xs :=
  List.get_mem xs _ _

theorem generate_orders_aux_user_mem (src : RandomSource) (users : List User)
    (hu : users ≠ []) (start now : ℕ) :
    ∀ n oid t, ∀ o ∈ generate_orders_aux src users hu start now oid n t,
      ∃ u ∈ users, o.user_id = u.user_id := by
  intro n
  induction n with
  | zero => intro oid t o ho; simp [generate_orders_aux] at ho
  | succ m ih =>
    intro oid t o ho
    rw [generate_orders_aux] at ho
    rcases List.mem_cons.mp ho with rfl | ho
    · exact ⟨choice users (src.nat t) hu, choice_mem _ _ _, rfl⟩
    · exact ih _ _ o ho

theorem generate_order_items_aux_spec (src : RandomSource)
    (orders : List Order) (products : List Product)
    (ho : orders ≠ []) (hp : products ≠ []) :
    ∀ n iid t,
      ∀ it ∈ generate_order_items_aux src orders products ho hp iid n t,
        (∃ o ∈ orders, it.order_id = o.order_id) ∧
        ∃ p ∈ products, it.product_id = p.product_id ∧ it.price = p.price := by
  intro n
  induction n with
  | zero => intro iid t it hit; simp [generate_order_items_aux] at hit
  | succ m ih =>
    intro iid t it hit
    rw [generate_order_items_aux] at hit
    rcases List.mem_cons.mp hit with rfl | hit
    · refine ⟨⟨choice orders (src.nat t) ho, choice_mem _ _ _, rfl⟩,
        ⟨choice products (src.nat (t + 1)) hp, choice_mem _ _ _, rfl, rfl⟩⟩
    · exact ih _ _ it hit

theorem generate_reviews_aux_spec (src : RandomSource) (users : List User)
    (products : List Product) (hu : users ≠ []) (hp : products ≠ []) :
    ∀ n rid t,
      ∀ r ∈ generate_reviews_aux src users products hu hp rid n t,
        (∃ u ∈ users, r.user_id = u.user_id) ∧
        ∃ p ∈ products, r.product_id = p.product_id := by
  intro n
  induction n with
  | zero => intro rid t r hr; simp [generate_reviews_aux] at hr
  | succ m ih =>
    intro rid t r hr
    rw [generate_reviews_aux] at hr
    rcases List.mem_cons.mp hr with rfl | hr
    · exact ⟨⟨choice users (src.nat t) hu, choice_mem _ _ _, rfl⟩,
        ⟨choice products (src.nat (t + 1)) hp, choice_mem _ _ _, rfl⟩⟩
    · exact ih _ _ r hr

/-- C3: referential closure — every foreign key produced by the generators
(`Order.user_id`, `OrderItem.order_id`, `OrderItem.product_id`,
`Review.user_id`, `Review.product_id`) is the identity of an entity of the
corresponding input collection. -/
theorem c3_referential_closure (src : RandomSource)
    (users : List User) (products : List Product) (orders : List Order)
    (hu : users ≠ []) (hp : products ≠ []) (ho : orders ≠ [])
    (cOrders cItems cReviews start now t1 t2 t3 : ℕ) :
    (∀ o ∈ generate_orders src cOrders users hu start now t1,
        o.user_id ∈ users.map (fun u => u.user_id)) ∧
      (∀ it ∈ generate_order_items src cItems orders products ho hp t2,
        it.order_id ∈ orders.map (fun o => o.order_id) ∧
          it.product_id ∈ products.map (fun p => p.product_id)) ∧
      (∀ r ∈ generate_reviews src cReviews users products hu hp t3,
        r.user_id ∈ users.map (fun u => u.user_id) ∧
          r.product_id ∈ products.map (fun p => p.product_id)) := by
  refine ⟨?_, ?_, ?_⟩
  · intro o ho2
    obtain ⟨u, hu2, he⟩ :=
      generate_orders_aux_user_mem src users hu start now cOrders 1 t1 o ho2
    exact he ▸ List.mem_map_of_mem _ hu2
  · intro it hit
    obtain ⟨⟨o, ho2, he1⟩, p, hp2, he2, _⟩ :=
      generate_order_items_aux_spec src orders products ho hp cItems 1 t2 it hit
    exact ⟨he1 ▸ List.mem_map_of_mem _ ho2, he2 ▸ List.mem_map_of_mem _ hp2⟩
  · intro r hr
    obtain ⟨⟨u, hu2, he1⟩, p, hp2, he2⟩ :=
      generate_reviews_aux_spec src users products hu hp cReviews 1 t3 r hr
    exact ⟨he1 ▸ List.mem_map_of_mem _ hu2, he2 ▸ List.mem_map_of_mem _ hp2⟩

/-- Constant random source used by concrete witnesses. -/
def cSrc0 : RandomSource := ⟨fun _ => 0, fun _ => 0⟩

/-- Concrete one-element collections used by concrete witnesses. -/
def userC : User := ⟨1, "A B", "a.b1@example.com", "X, Y", 0⟩

def productC : Product := ⟨1, "P Q", "C", 1, 1⟩

def orderC : Order := ⟨1, 1, 0, 0⟩

theorem c3_referential_closure_witness :
    (∀ o ∈ generate_orders cSrc0 1 [userC] (by decide) 0 0 0,
        o.user_id ∈ [userC].map (fun u => u.user_id)) ∧
      (∀ it ∈ generate_order_items cSrc0 1 [orderC] [productC]
          (by decide) (by decide) 0,
        it.order_id ∈ [orderC].map (fun o => o.order_id) ∧
          it.product_id ∈ [productC].map (fun p => p.product_id)) ∧
      (∀ r ∈ generate_reviews cSrc0 1 [userC] [productC]
          (by decide) (by decide) 0,
        r.user_id ∈ [userC].map (fun u => u.user_id) ∧
          r.product_id ∈ [productC].map (fun p => p.product_id)) :=
  c3_referential_closure cSrc0 [userC] [productC] [orderC]
    (by decide) (by decide) (by decide) 1 1 1 0 0 0 0 0

/-- Later external price change: `products.map` rewriting the price of the
product with identity `pid` (floats are copied by value in the items, so the
item collection is not part of this operation at all). -/
def set_product_price (products : List Product) (pid : ℕ) (newp : ℚ) :
    List Product :=
  products.map (fun p => if p.product_id = pid then { p with price := newp } else p)

/-- Dataset-level view of `set_product_price`: only the product catalog is
rebuilt. -/
def ds_set_product_price (ds : Dataset) (pid : ℕ) (newp : ℚ) : Dataset :=
  { ds with products := set_product_price ds.products pid newp }

/-- C5: every generated order item stores the referenced product's price as it
stood at generation time, and a later catalog price change leaves the already
generated order items untouched. -/
theorem c5_unit_price_point_in_time (src : RandomSource) (count : ℕ)
    (orders : List Order) (products : List Product)
    (ho : orders ≠ []) (hp : products ≠ []) (t : ℕ) :
    (∀ it ∈ generate_order_items src count orders products ho hp t,
        ∃ p ∈ products, it.product_id = p.product_id ∧ it.price = p.price) ∧
      ∀ (ds : Dataset) (pid : ℕ) (newp : ℚ),
        (ds_set_product_price ds pid newp).order_items = ds.order_items := by
  constructor
  · intro it hit
    exact (generate_order_items_aux_spec src orders products ho hp
      count 1 t it hit).2
  · intro ds pid newp
    rfl

theorem c5_unit_price_point_in_time_witness :
    (∀ it ∈ generate_order_items cSrc0 1 [orderC] [productC]
        (by decide) (by decide) 0,
        ∃ p ∈ [productC], it.product_id = p.product_id ∧ it.price = p.price) ∧
      ∀ (ds : Dataset) (pid : ℕ) (newp : ℚ),
        (ds_set_product_price ds pid newp).order_items = ds.order_items :=
  c5_unit_price_point_in_time cSrc0 1 [orderC] [productC]
    (by decide) (by decide) 0

theorem takeWhile_append_of_all {p : Char → Bool} :
    ∀ (xs ys : List Char), (∀ c ∈ xs, p c = true) →
      (xs ++ ys).takeWhile p = xs ++ ys.takeWhile p := by
  intro xs ys h
  induction xs with
  | nil => simp
  | cons a t ih =>
    rw [List.cons_append, List.takeWhile_cons_of_pos (h a (by simp)),
      ih (fun c hc => h c (by simp [hc])), List.cons_append]

theorem takeWhile_nil_of_head {p : Char → Bool} (ys : List Char)
    (h : ∀ c, ys.head? = some c → p c = false) : ys.takeWhile p = [] := by
  cases ys with
  | nil => rfl
  | cons a t =>
    have := h a rfl
    simp [List.takeWhile_cons, this]

/-- A list ending in a non-digit followed by a run of digits determines the
run: if `a1 ++ d1 = a2 ++ d2` with `d1, d2` all digits and `a1, a2` not ending
in a digit, then `d1 = d2`. -/
theorem trailing_digits_eq (a1 a2 d1 d2 : List Char)
    (hd1 : ∀ c ∈ d1, c.isDigit = true) (hd2 : ∀ c ∈ d2, c.isDigit = true)
    (ha1 : ∀ c, a1.getLast? = some c → c.isDigit = false)
    (ha2 : ∀ c, a2.getLast? = some c → c.isDigit = false)
    (h : a1 ++ d1 = a2 ++ d2) : d1 = d2 := by
  have hr := congrArg List.reverse h
  simp only [List.reverse_append] at hr
  have key : ∀ (a d : List Char), (∀ c ∈ d, c.isDigit = true) →
      (∀ c, a.getLast? = some c → c.isDigit = false) →
      (d.reverse ++ a.reverse).takeWhile Char.isDigit = d.reverse := by
    intro a d hd ha
    rw [takeWhile_append_of_all _ _ (fun c hc => hd c (List.mem_reverse.mp hc)),
      takeWhile_nil_of_head _ (fun c hc => ha c (by rwa [List.head?_reverse] at hc))]
    simp
  have e1 := key a1 d1 hd1 ha1
  have e2 := key a2 d2 hd2 ha2
  rw [hr, e2] at e1
  exact (List.reverse_injective e1).symm

/-- Check that a character list does not end in a decimal digit. -/
def lastNonDigit (l : List Char) : Bool :=
  match l.getLast? with
  | none => true
  | some c => !c.isDigit

theorem lastNonDigit_spec {l : List Char} (h : lastNonDigit l = true) :
    ∀ c, l.getLast? = some c → c.isDigit = false := by
  intro c hc
  unfold lastNonDigit at h
  rw [hc] at h
  simpa using h

/-- Every last name of the pool lowers to a nonempty string ending in a
letter, never a digit. -/
theorem last_names_lower_ok :
    ∀ s ∈ LAST_NAMES, (strLower s).data ≠ [] ∧
      lastNonDigit ((strLower s).data) = true := by
  decide

theorem mk_email_data (f l : String) (uid : ℕ) :
    (mk_email f l uid).data =
      ((strLower f).data ++ '.' :: (strLower l).data) ++
        (natRepr uid ++ ("@example.com").data) := by
  simp [mk_email, String.data_append]

/-- The user id is recoverable from the email: with last names drawn from the
pool the id digits are exactly the maximal digit run before `@example.com`. -/
theorem mk_email_uid_inj (f1 l1 f2 l2 : String) (uid1 uid2 : ℕ)
    (h1 : l1 ∈ LAST_NAMES) (h2 : l2 ∈ LAST_NAMES)
    (he : mk_email f1 l1 uid1 = mk_email f2 l2 uid2) : uid1 = uid2 := by
  have hd := congrArg String.data he
  rw [mk_email_data, mk_email_data] at hd
  rw [← List.append_assoc, ← List.append_assoc] at hd
  have hcancel : ((strLower f1).data ++ '.' :: (strLower l1).data) ++ natRepr uid1 =
      ((strLower f2).data ++ '.' :: (strLower l2).data) ++ natRepr uid2 :=
    List.append_inj_left' hd rfl
  have hlast : ∀ l3 : String, l3 ∈ LAST_NAMES → ∀ (f3 : String) c,
      ((strLower f3).data ++ '.' :: (strLower l3).data).getLast? = some c →
      c.isDigit = false := by
    intro l3 hl3 f3 c hc
    obtain ⟨hne, hnd⟩ := last_names_lower_ok l3 hl3
    rw [show (strLower f3).data ++ '.' :: (strLower l3).data =
        ((strLower f3).data ++ ['.']) ++ (strLower l3).data by simp,
      List.getLast?_append_of_ne_nil _ hne] at hc
    exact lastNonDigit_spec hnd c hc
  have hdig := trailing_digits_eq _ _ _ _
    (natRepr_digits uid1) (natRepr_digits uid2)
    (hlast l1 h1 f1) (hlast l2 h2 f2) hcancel
  exact natRepr_injective hdig

/-- Every generated user's email has the pool/name/uid shape. -/
theorem generate_users_aux_email (src : RandomSource) (start now : ℕ) :
    ∀ n uid t, ∀ u ∈ generate_users_aux src start now uid n t,
      ∃ f ∈ FIRST_NAMES, ∃ l ∈ LAST_NAMES, u.email = mk_email f l u.user_id := by
  intro n
  induction n with
  | zero => intro uid t u hu; simp [generate_users_aux] at hu
  | succ m ih =>
    intro uid t u hu
    rw [generate_users_aux] at hu
    rcases List.mem_cons.mp hu with rfl | hu
    · exact ⟨choice FIRST_NAMES (src.nat t) (by decide), choice_mem _ _ _,
        choice LAST_NAMES (src.nat (t + 1)) (by decide), choice_mem _ _ _, rfl⟩
    · exact ih _ _ u hu

/-- C9: users with distinct identities get distinct generated emails, so the
uniqueness constraint on user email holds by construction. -/
theorem c9_emails_injective (src : RandomSource) (count start now t : ℕ) :
    ∀ u ∈ generate_users src count start now t,
      ∀ v ∈ generate_users src count start now t,
        u.user_id ≠ v.user_id → u.email ≠ v.email := by
  intro u hu v hv hne he
  obtain ⟨f1, hf1, l1, hl1, he1⟩ :=
    generate_users_aux_email src start now count 1 t u hu
  obtain ⟨f2, hf2, l2, hl2, he2⟩ :=
    generate_users_aux_email src start now count 1 t v hv
  rw [he1, he2] at he
  exact hne (mk_email_uid_inj f1 l1 f2 l2 u.user_id v.user_id hl1 hl2 he)

theorem c9_emails_injective_witness :
    (⟨1, "Avery Smith", "avery.smith1@example.com", "Seattle, USA", 0⟩ :
        User).email ≠
      (⟨2, "Avery Smith", "avery.smith2@example.com", "Seattle, USA", 0⟩ :
        User).email :=
  c9_emails_injective cSrc0 2 0 1 0
    ⟨1, "Avery Smith", "avery.smith1@example.com", "Seattle, USA", 0⟩
    (by decide)
    ⟨2, "Avery Smith", "avery.smith2@example.com", "Seattle, USA", 0⟩
    (by decide) (by decide)

theorem generate_users_aux_length (src : RandomSource) (start now : ℕ) :
    ∀ n uid t, (generate_users_aux src start now uid n t).length = n := by
  intro n
  induction n with
  | zero => intro uid t; rfl
  | succ m ih => intro uid t; simp [generate_users_aux, ih]

theorem generate_products_aux_length (src : RandomSource) :
    ∀ n pid t, (generate_products_aux src pid n t).length = n := by
  intro n
  induction n with
  | zero => intro pid t; rfl
  | succ m ih => intro pid t; simp [generate_products_aux, ih]

theorem generate_orders_aux_length (src : RandomSource) (users : List User)
    (hu : users ≠ []) (start now : ℕ) :
    ∀ n oid t, (generate_orders_aux src users hu start now oid n t).length = n := by
  intro n
  induction n with
  | zero => intro oid t; rfl
  | succ m ih => intro oid t; simp [generate_orders_aux, ih]

theorem generate_users_ne_nil (src : RandomSource) (count start now t : ℕ)
    (h : count ≠ 0) : generate_users src count start now t ≠ [] := by
  intro hnil
  have := congrArg List.length hnil
  rw [generate_users, generate_users_aux_length] at this
  exact h (by simpa using this)

theorem generate_products_ne_nil (src : RandomSource) (count t : ℕ)
    (h : count ≠ 0) : generate_products src count t ≠ [] := by
  intro hnil
  have := congrArg List.length hnil
  rw [generate_products, generate_products_aux_length] at this
  exact h (by simpa using this)

theorem generate_orders_ne_nil (src : RandomSource) (count : ℕ)
    (users : List User) (hu : users ≠ []) (start now t : ℕ)
    (h : count ≠ 0) : generate_orders src count users hu start now t ≠ [] := by
  intro hnil
  have := congrArg List.length hnil
  rw [generate_orders, generate_orders_aux_length] at this
  exact h (by simpa using this)

/-- Timestamp of `datetime(2019, 1, 1)` in seconds. -/
def DATE2019 : ℕ := 1546300800

/-- Timestamp of `datetime(2021, 1, 1)` in seconds. -/
def DATE2021 : ℕ := 1609459200

/-- Embedding of `main()` of the generator: users, products, orders, order
items and reviews with the fixed counts 50/40/100/200/80, a shared sequential
random stream (each generator starts where the previous one stopped:
`4*50 = 200`, `200 + 5*40 = 400`, `400 + 2*100 = 600`, `600 + 3*200 = 1200`
positions), and the recomputed order totals. -/
def generate_pipeline (src : RandomSource) (now : ℕ) : Option Dataset :=
  let users := generate_users src 50 DATE2019 now 0
  let products := generate_products src 40 200
  let orders := generate_orders src 100 users
    (generate_users_ne_nil src 50 DATE2019 now 0 (by decide)) DATE2021 now 400
  let items := generate_order_items src 200 orders products
    (generate_orders_ne_nil src 100 users
      (generate_users_ne_nil src 50 DATE2019 now 0 (by decide))
      DATE2021 now 400 (by decide))
    (generate_products_ne_nil src 40 200 (by decide)) 600
  let reviews := generate_reviews src 80 users products
    (generate_users_ne_nil src 50 DATE2019 now 0 (by decide))
    (generate_products_ne_nil src 40 200 (by decide)) 1200
  (update_order_totals orders items).map fun os =>
    { users := users, products := products, orders := os,
      order_items := items, reviews := reviews }

/-- Random source whose natural stream is constantly `2`, exhibiting the
clock dependence of the generated dates. -/
def cSrc2 : RandomSource := ⟨fun _ => 2, fun _ => 0⟩

/-- C2 counterexample: the claim as stated is false — with the same seed
(identical random stream) and the same count, two generation runs whose
`datetime.now()` differ (here by one second) produce different user
collections, because the clock bounds the `randint` inside `random_date`. -/
theorem c2_now_dependence_counterexample :
    generate_users cSrc2 1 0 1 0 ≠ generate_users cSrc2 1 0 2 0 := by
  decide

/-- C2 (amended): with the same seed, the same counts and the same generation
clock instant, two runs of the generator produce identical output collections. -/
theorem c2_generation_deterministic (src1 src2 : RandomSource)
    (now1 now2 : ℕ) (hs : src1 = src2) (hn : now1 = now2) :
    generate_pipeline src1 now1 = generate_pipeline src2 now2 := by
  subst hs
  subst hn
  rfl

theorem c2_generation_deterministic_witness :
    generate_pipeline cSrc0 0 = generate_pipeline cSrc0 0 :=
  c2_generation_deterministic cSrc0 cSrc0 0 0 rfl rfl

/- ### CSV variant (`scripts/generate_data.py`), product/item/total section -/

/-- Row of `orders.csv`: `(order_id, user_id, order_date, status,
shipping_address, total_amount)`. -/
structure CsvOrder where
  order_id : ℕ
  user_id : ℕ
  order_date : ℕ
  status : String
  shipping_address : String
  total_amount : ℚ
deriving DecidableEq, Repr

/-- Row of `order_items.csv`: `(order_item_id, order_id, product_id,
quantity, unit_price, line_total)`. -/
structure CsvOrderItem where
  order_item_id : ℕ
  order_id : ℕ
  product_id : ℕ
  quantity : ℕ
  unit_price : ℚ
  line_total : ℚ
deriving DecidableEq, Repr

def ADJECTIVES : List String :=
  ["Wireless", "Smart", "Eco", "Ultra", "Compact", "Pro"]

def CSV_NOUNS : List String :=
  ["Speaker", "Lamp", "Backpack", "Tent", "Cookbook", "Serum", "Drone", "Headset"]

def PRODUCT_CATEGORIES : List String :=
  ["Electronics", "Home", "Outdoors", "Books", "Beauty", "Toys"]

/-- Loop body of the CSV product generation; each iteration consumes five
stream positions (adjective, noun, category, price, stock), prices are
`round(random.uniform(10, 600), 2)`. -/
def csv_generate_products_aux (src : RandomSource) : ℕ → ℕ → ℕ → List Product
  | _, 0, _ => []
  | pid, n + 1, t =>
    { product_id := pid
      name := choice ADJECTIVES (src.nat t) (by decide) ++ " " ++
        choice CSV_NOUNS (src.nat (t + 1)) (by decide)
      category := choice PRODUCT_CATEGORIES (src.nat (t + 2)) (by decide)
      price := round2 (src.rat (t + 3))
      stock := randint src (t + 4) 25 500 } ::
      csv_generate_products_aux src (pid + 1) n (t + 5)

/-- Embedding of the CSV product loop starting at stream position `t`. -/
def csv_generate_products (src : RandomSource) (count t : ℕ) : List Product :=
  csv_generate_products_aux src 1 count t

/-- Embedding of the dict `price_lookup[product_id]` built during product
generation (`none` is a `KeyError`). -/
def price_lookup (products : List Product) (pid : ℕ) : Option ℚ :=
  (products.find? (fun p => p.product_id == pid)).map (fun p => p.price)

/-- Loop body of the CSV order-item generation; each iteration consumes three
stream positions (order id, product id, quantity); the unit price is read
from `price_lookup` and `line_total = round(quantity * unit_price, 2)`. -/
def csv_generate_order_items_aux (src : RandomSource) (products : List Product)
    (ocount pcount : ℕ) : ℕ → ℕ → ℕ → Option (List CsvOrderItem)
  | _, 0, _ => some []
  | iid, n + 1, t =>
    let oid := randint src t 1 ocount
    let pid := randint src (t + 1) 1 pcount
    let q := randint src (t + 2) 1 5
    match price_lookup products pid with
    | none => none
    | some up =>
      (csv_generate_order_items_aux src products ocount pcount
          (iid + 1) n (t + 3)).map
        (fun rest => ⟨iid, oid, pid, q, up, round2 ((q : ℚ) * up)⟩ :: rest)

/-- Embedding of the CSV order-item loop starting at stream position `t`. -/
def csv_generate_order_items (src : RandomSource) (count : ℕ)
    (products : List Product) (ocount pcount t : ℕ) :
    Option (List CsvOrderItem) :=
  csv_generate_order_items_aux src products ocount pcount 1 count t

/-- Embedding of `totals = \x7border_id: 0.0 for order_id in range(1, ocount + 1)\x7d`. -/
def csv_range_init (ocount : ℕ) : ℕ → Option ℚ :=
  fun k => if 1 ≤ k ∧ k ≤ ocount then some 0 else none

/-- Embedding of the CSV total-update section: accumulate `line_total` per
order id over the range dict, then rebuild each order row with
`round(totals[order_id], 2)` as its last component. -/
def csv_update_totals (ocount : ℕ) (orders : List CsvOrder)
    (items : List CsvOrderItem) : Option (List CsvOrder) :=
  (accumulate (fun it => it.order_id) (fun it => it.line_total)
      items (csv_range_init ocount)).bind
    (assign_totals (fun o => o.order_id)
      (fun o v => { o with total_amount := v }) · orders)

theorem csv_generate_products_aux_price2dp (src : RandomSource) :
    ∀ n pid t, ∀ p ∈ csv_generate_products_aux src pid n t, Is2dp p.price := by
  intro n
  induction n with
  | zero => intro pid t p hp; simp [csv_generate_products_aux] at hp
  | succ m ih =>
    intro pid t p hp
    rw [csv_generate_products_aux] at hp
    rcases List.mem_cons.mp hp with rfl | hp
    · exact is2dp_round2 _
    · exact ih _ _ p hp

theorem price_lookup_is2dp {products : List Product} {pid : ℕ} {up : ℚ}
    (hp : ∀ p ∈ products, Is2dp p.price)
    (h : price_lookup products pid = some up) : Is2dp up := by
  unfold price_lookup at h
  obtain ⟨p, hfind, rfl⟩ := Option.map_eq_some'.mp h
  exact hp p (List.mem_of_find?_eq_some hfind)

theorem csv_generate_order_items_aux_spec (src : RandomSource)
    (products : List Product) (ocount pcount : ℕ)
    (hp : ∀ p ∈ products, Is2dp p.price) :
    ∀ n iid t items,
      csv_generate_order_items_aux src products ocount pcount iid n t =
        some items →
      ∀ it ∈ items,
        Is2dp it.unit_price ∧
          it.line_total = round2 ((it.quantity : ℚ) * it.unit_price) ∧
          it.line_total = (it.quantity : ℚ) * it.unit_price ∧
          Is2dp it.line_total := by
  intro n
  induction n with
  | zero =>
    intro iid t items h it hit
    simp only [csv_generate_order_items_aux, Option.some.injEq] at h
    subst h
    simp at hit
  | succ m ih =>
    intro iid t items h it hit
    rw [csv_generate_order_items_aux] at h
    cases hl : price_lookup products (randint src (t + 1) 1 pcount) with
    | none => rw [hl] at h; exact absurd h (by simp)
    | some up =>
      rw [hl] at h
      obtain ⟨rest, hrest, rfl⟩ := Option.map_eq_some'.mp h
      rcases List.mem_cons.mp hit with rfl | hit
      · have hup : Is2dp up := price_lookup_is2dp hp hl
        have hmul : Is2dp ((randint src (t + 2) 1 5 : ℚ) * up) :=
          is2dp_natCast_mul _ hup
        refine ⟨hup, rfl, ?_, ?_⟩
        · exact round2_eq_self _ hmul
        · show Is2dp (round2 _)
          exact is2dp_round2 _
      · exact ih _ _ rest hrest it hit

/-- C6: in the CSV output every order item's `unit_price` is an exact
two-decimal value, `line_total = round(quantity * unit_price, 2)` which (the
inputs being already rounded) equals `quantity * unit_price` exactly, and
every rebuilt order total is `round` of the sum of the rounded line totals —
and again equal to that sum, so no higher-precision intermediate survives. -/
theorem c6_numeric_policy (src : RandomSource)
    (pcount tp icount ocount ti : ℕ) (items : List CsvOrderItem)
    (orders orders' : List CsvOrder)
    (hi : csv_generate_order_items src icount
      (csv_generate_products src pcount tp) ocount pcount ti = some items)
    (ho : csv_update_totals ocount orders items = some orders') :
    (∀ it ∈ items,
        Is2dp it.unit_price ∧
          it.line_total = round2 ((it.quantity : ℚ) * it.unit_price) ∧
          it.line_total = (it.quantity : ℚ) * it.unit_price ∧
          Is2dp it.line_total) ∧
      ∀ o ∈ orders',
        o.total_amount = round2 (((items.filter
            (fun it => it.order_id == o.order_id)).map
            (fun it => it.line_total)).sum) ∧
          o.total_amount = ((items.filter
            (fun it => it.order_id == o.order_id)).map
            (fun it => it.line_total)).sum := by
  have hitems := csv_generate_order_items_aux_spec src
    (csv_generate_products src pcount tp) ocount pcount
    (csv_generate_products_aux_price2dp src pcount 1 tp) icount 1 ti items hi
  refine ⟨hitems, ?_⟩
  unfold csv_update_totals at ho
  obtain ⟨tot, hacc, hassign⟩ := Option.bind_eq_some.mp ho
  intro b hb
  obtain ⟨o, ho2, v, htot, rfl⟩ := assign_totals_mem _ _ _ _ _ hassign b hb
  have hdom := accumulate_isSome_eq _ _ items _ _ hacc o.order_id
  have hinit : csv_range_init ocount o.order_id = some 0 := by
    have : (csv_range_init ocount o.order_id).isSome = true := by
      rw [← hdom, htot]; rfl
    unfold csv_range_init at this ⊢
    by_cases hr : 1 ≤ o.order_id ∧ o.order_id ≤ ocount
    · rw [if_pos hr]
    · rw [if_neg hr] at this; exact absurd this (by simp)
  have hval := accumulate_val _ _ _ _ _ hacc o.order_id 0 hinit
  rw [htot] at hval
  have hv : v = keyedSum (fun it => it.order_id)
      (fun it => it.line_total) items o.order_id := by
    have := Option.some.inj hval
    simpa using this
  have hid : ({ o with total_amount := round2 v } : CsvOrder).order_id =
      o.order_id := rfl
  have hsum2dp : Is2dp (((items.filter
      (fun it => it.order_id == o.order_id)).map
      (fun it => it.line_total)).sum) := by
    apply is2dp_sum
    intro q hq
    obtain ⟨it, hit, rfl⟩ := List.mem_map.mp hq
    exact (hitems it (List.mem_of_mem_filter hit)).2.2.2
  constructor
  · show round2 v = _
    rw [hid, hv]
    rfl
  · show round2 v = _
    rw [hid, hv]
    exact round2_eq_self _ hsum2dp

theorem c6_numeric_policy_witness :
    (∀ it ∈ [(⟨1, 1, 1, 1, round2 0,
          round2 (((1 : ℕ) : ℚ) * round2 0)⟩ : CsvOrderItem)],
        Is2dp it.unit_price ∧
          it.line_total = round2 ((it.quantity : ℚ) * it.unit_price) ∧
          it.line_total = (it.quantity : ℚ) * it.unit_price ∧
          Is2dp it.line_total) ∧
      ∀ o ∈ [(⟨1, 1, 0, "pending", "1 Oak St",
          round2 (0 + round2 (((1 : ℕ) : ℚ) * round2 0))⟩ : CsvOrder)],
        o.total_amount = round2 ((([(⟨1, 1, 1, 1, round2 0,
            round2 (((1 : ℕ) : ℚ) * round2 0)⟩ : CsvOrderItem)].filter
            (fun it => it.order_id == o.order_id)).map
            (fun it => it.line_total)).sum) ∧
          o.total_amount = (([(⟨1, 1, 1, 1, round2 0,
            round2 (((1 : ℕ) : ℚ) * round2 0)⟩ : CsvOrderItem)].filter
            (fun it => it.order_id == o.order_id)).map
            (fun it => it.line_total)).sum :=
  c6_numeric_policy cSrc0 1 0 1 1 0
    [⟨1, 1, 1, 1, round2 0, round2 (((1 : ℕ) : ℚ) * round2 0)⟩]
    [⟨1, 1, 0, "pending", "1 Oak St", 0⟩]
    [⟨1, 1, 0, "pending", "1 Oak St",
      round2 (0 + round2 (((1 : ℕ) : ℚ) * round2 0))⟩]
    rfl rfl

/- ### Loader (`scripts/ingest_to_sqlite.py`) -/

/-- A CSV row as produced by `csv.DictReader`: column name/value pairs. -/
abbrev Row : Type := List (String × String)

/-- The five tables of the SQLite database. -/
structure Db where
  users : List Row
  products : List Row
  orders : List Row
  order_items : List Row
  reviews : List Row
deriving DecidableEq

/-- The required dataset files, in the iteration order of `CSV_FILES`. -/
def CSV_FILES : List String :=
  ["users", "products", "orders", "order_items", "reviews"]

/-- Observable steps of `insert_all`: reading one dataset file, or executing
one bulk `INSERT` into one table. -/
inductive LoadEvent where
  | readFile (name : String)
  | insertRows (table : String) (rows : List Row)
deriving DecidableEq

/-- Embedding of the dict comprehension
`data = \x7bname: read_csv(path) for name, path in CSV_FILES.items()\x7d`:
read every file in order, stopping with an exception (`none`) at the first
missing one; the event trace records the reads actually performed. -/
def read_all : List String → (String → Option (List Row)) →
    Option (List (String × List Row)) × List LoadEvent
  | [], _ => (some [], [])
  | n :: rest, fs =>
    match fs n with
    | none => (none, [LoadEvent.readFile n])
    | some rows =>
      let r := read_all rest fs
      (r.1.map (fun d => (n, rows) :: d), LoadEvent.readFile n :: r.2)

/-- Lookup of `data[name]` once all reads have succeeded. -/
def tableRows (data : List (String × List Row)) (n : String) : List Row :=
  ((data.find? (fun e => e.1 == n)).map (fun e => e.2)).getD []

/-- Embedding of `insert_all(conn)`: read all five dataset files first, then
execute the five bulk inserts in dependency order; a missing file aborts
before any insert.  The returned trace lists the performed reads and
inserts in execution order. -/
def insert_all (fs : String → Option (List Row)) (db : Db) :
    Option Db × List LoadEvent :=
  match read_all CSV_FILES fs with
  | (none, evs) => (none, evs)
  | (some data, evs) =>
    (some { users := db.users ++ tableRows data "users"
            products := db.products ++ tableRows data "products"
            orders := db.orders ++ tableRows data "orders"
            order_items := db.order_items ++ tableRows data "order_items"
            reviews := db.reviews ++ tableRows data "reviews" },
      evs ++ [LoadEvent.insertRows "users" (tableRows data "users"),
        LoadEvent.insertRows "products" (tableRows data "products"),
        LoadEvent.insertRows "orders" (tableRows data "orders"),
        LoadEvent.insertRows "order_items" (tableRows data "order_items"),
        LoadEvent.insertRows "reviews" (tableRows data "reviews")])

theorem read_all_missing :
    ∀ (names : List String) (fs : String → Option (List Row)),
      (∃ n ∈ names, fs n = none) → (read_all names fs).1 = none := by
  intro names
  induction names with
  | nil => intro fs h; simp at h
  | cons n rest ih =>
    intro fs h
    rw [read_all]
    cases hn : fs n with
    | none => rfl
    | some rows =>
      obtain ⟨m, hm, hmnone⟩ := h
      rcases List.mem_cons.mp hm with rfl | hm
      · rw [hn] at hmnone; exact absurd hmnone (by simp)
      · have := ih fs ⟨m, hm, hmnone⟩
        simp [this]

theorem read_all_events_read :
    ∀ (names : List String) (fs : String → Option (List Row)),
      ∀ e ∈ (read_all names fs).2, ∃ n, e = LoadEvent.readFile n := by
  intro names
  induction names with
  | nil => intro fs e he; simp [read_all] at he
  | cons n rest ih =>
    intro fs e he
    rw [read_all] at he
    cases hn : fs n with
    | none =>
      rw [hn] at he
      simp only [List.mem_singleton] at he
      exact ⟨n, he⟩
    | some rows =>
      rw [hn] at he
      simp only [List.mem_cons] at he
      rcases he with rfl | he
      · exact ⟨n, rfl⟩
      · exact ih fs e he

/-- C8: if any required dataset file is absent, the load fails before any row
is inserted — the result is an error and the execution trace contains only
file reads, never an insert. -/
theorem c8_missing_file_fails_before_insert
    (fs : String → Option (List Row)) (db : Db)
    (h : ∃ n ∈ CSV_FILES, fs n = none) :
    (insert_all fs db).1 = none ∧
      ∀ e ∈ (insert_all fs db).2, ∃ n, e = LoadEvent.readFile n := by
  have hnone := read_all_missing CSV_FILES fs h
  have hev := read_all_events_read CSV_FILES fs
  unfold insert_all
  cases hra : read_all CSV_FILES fs with
  | mk res evs =>
    rw [hra] at hnone hev
    simp only at hnone
    subst hnone
    exact ⟨rfl, hev⟩

theorem c8_missing_file_fails_before_insert_witness :
    (insert_all (fun _ => none) (Db.mk [] [] [] [] [])).1 = none ∧
      ∀ e ∈ (insert_all (fun _ => none) (Db.mk [] [] [] [] [])).2,
        ∃ n, e = LoadEvent.readFile n :=
  c8_missing_file_fails_before_insert (fun _ => none) (Db.mk [] [] [] [] [])
    ⟨"users", by decide, rfl⟩
